import Mathlib

/-
Verification development for the deletion core of aind-data-upload-utils:
`delete_staging_folder_job.py` and `delete_source_folders_job.py`.

Paths are modelled as Lean `String`s; the Python string primitives used by
the code (`str.split`, `str.startswith`, `os.path.normpath`, ...) are
translated to executable functions over the underlying character lists so
that concrete runs can be evaluated inside the kernel.
-/

/-- Does the character list `p` occur as an initial segment of `s`?
Translation of Python `s.startswith(p)` over the chars of the strings. -/
def listStarts : List Char → List Char → Bool
  | [], _ => true
  | _ :: _, [] => false
  | a :: ps, b :: ss => a = b && listStarts ps ss

/-- Python `str.split(sep)` for a one-character separator: splits at every
occurrence of `sep`, keeping empty pieces (so `"a//b"` gives `["a","","b"]`). -/
def splitChar (sep : Char) : List Char → List (List Char)
  | [] => [[]]
  | c :: cs =>
    if c = sep then [] :: splitChar sep cs
    else
      match splitChar sep cs with
      | [] => [[c]]
      | r :: rs => (c :: r) :: rs

/-- Python `sep.join(parts)` for a one-character separator. -/
def joinSep (sep : Char) : List (List Char) → List Char
  | [] => []
  | [x] => x
  | x :: y :: rest => x ++ sep :: joinSep sep (y :: rest)

/-- Python `s.startswith(p)` on `String`s. -/
def pyStartsWith (s p : String) : Bool :=
  listStarts p.data s.data

/-- Python `s.endswith(p)` on `String`s. -/
def pyEndsWith (s p : String) : Bool :=
  listStarts p.data.reverse s.data.reverse

/-- Python `os.path.isabs` on POSIX: the path begins with a slash. -/
def isabs (path : String) : Bool :=
  listStarts ['/'] path.data

/-- One step of the component loop inside `posixpath.normpath`: skip empty
and `.` components, push ordinary components, and resolve `..` against the
stack exactly as the Python code does. -/
def normpathStep (slashes : Nat) (acc : List (List Char)) (comp : List Char) :
    List (List Char) :=
  if comp = [] ∨ comp = ['.'] then acc
  else if comp ≠ ['.', '.'] ∨ (slashes = 0 ∧ acc = []) ∨
      (acc ≠ [] ∧ acc.getLast? = some ['.', '.']) then acc ++ [comp]
  else if acc ≠ [] then acc.dropLast
  else acc

/-- Translation of CPython `posixpath.normpath` (the function used by
`os.path.normpath` on Linux): empty path maps to `.`, one or two leading
slashes are preserved (three or more collapse to one), `.` and empty
components are dropped, and `..` pops the previous component. -/
def normpath (path : String) : String :=
  if path = "" then "."
  else
    let d := path.data
    let slashes : Nat :=
      if listStarts ['/'] d then
        if listStarts ['/', '/'] d ∧ ¬ listStarts ['/', '/', '/'] d then 2
        else 1
      else 0
    let comps := splitChar '/' d
    let newComps := comps.foldl (normpathStep slashes) []
    let res := List.replicate slashes '/' ++ joinSep '/' newComps
    if res = [] then "." else String.mk res

/-- Does the string start with at least one character that the regex dot
can match (any character except a newline)?  This is what the trailing
`.+` of an anchored Python regex requires of the remaining input. -/
def dotPlusHead (s : List Char) : Bool :=
  match s with
  | [] => false
  | c :: _ => c ≠ '\n'

/-- Translation of `re.match` for the staging-job class pattern
`^/allen/aind/stage/svc_aind_airflow/(?:prod|dev)/.+` from
`delete_staging_folder_job.JobSettings.pattern_to_match`: the literal
prefix with either branch of the alternation, followed by at least one
non-newline character. -/
def stagingPatternMatch (s : String) : Bool :=
  let p1 := "/allen/aind/stage/svc_aind_airflow/prod/".data
  let p2 := "/allen/aind/stage/svc_aind_airflow/dev/".data
  (listStarts p1 s.data && dotPlusHead (s.data.drop p1.length)) ||
  (listStarts p2 s.data && dotPlusHead (s.data.drop p2.length))

/-- Matcher for the sub-regex `.+/.+` anchored at the start of `s`: some
non-empty newline-free run of characters, a slash, then at least one
non-newline character.  `atStart` records whether no character has been
consumed yet (the first `.+` must consume at least one). -/
def dotSlashDotMatch : List Char → Bool → Bool
  | [], _ => false
  | c :: rest, atStart =>
    if c = '\n' then false
    else if c = '/' ∧ atStart = false then
      dotPlusHead rest || dotSlashDotMatch rest false
    else dotSlashDotMatch rest false

/-- Translation of `re.match` for the source-job class pattern
`^/{1,2}allen/aind/(?:stage|scratch)/.+/.+` from
`delete_source_folders_job.JobSettings.pattern_to_match`: one or two
leading slashes (three or more fail), the literal middle, then `.+/.+`. -/
def sourcePatternMatch (s : String) : Bool :=
  let q1 := "/allen/aind/stage/".data
  let q2 := "/allen/aind/scratch/".data
  let d := s.data
  let oneSlash :=
    (listStarts q1 d && dotSlashDotMatch (d.drop q1.length) true) ||
    (listStarts q2 d && dotSlashDotMatch (d.drop q2.length) true)
  let twoSlash :=
    (listStarts ('/' :: q1) d &&
      dotSlashDotMatch (d.drop (q1.length + 1)) true) ||
    (listStarts ('/' :: q2) d &&
      dotSlashDotMatch (d.drop (q2.length + 1)) true)
  twoSlash || oneSlash


/-- One node of the local filesystem as seen through `pathlib`: its name,
whether `is_dir()` and `is_symlink()` hold for it, and the entries
`iterdir()` would yield inside it.  Non-directories carry an empty child
list.  A symbolic link pointing at a directory has `isDir = true` and
`isSymlink = true`, matching the `pathlib` predicates. -/
inductive FSEntry where
  | mk (name : String) (isDir : Bool) (isSymlink : Bool)
      (children : List FSEntry)

/-- The entry name. -/
def FSEntry.name : FSEntry → String
  | .mk n _ _ _ => n

/-- The `is_dir()` flag of the entry. -/
def FSEntry.isDir : FSEntry → Bool
  | .mk _ d _ _ => d

/-- The `is_symlink()` flag of the entry. -/
def FSEntry.isSymlink : FSEntry → Bool
  | .mk _ _ s _ => s

/-- The entries `iterdir()` yields inside this entry. -/
def FSEntry.children : FSEntry → List FSEntry
  | .mk _ _ _ ch => ch

mutual

/-- Translation of the inner `do_scan` closure of
`DeleteStagingFolderJob._get_list_of_sub_directories`: iterate over the
entries of the current directory; descend into real (non-symlink)
directories while `depth < max_depth`; append real directories seen when
`depth == max_depth` to the output.  Paths are lists of name components
below the scanned root; `pre` is the path of the directory whose entries
are being iterated. -/
def doScan (maxDepth : Nat) :
    List FSEntry → List String → Nat → List (List String)
  | [], _, _ => []
  | f :: rest, pre, depth =>
    doScanBody maxDepth f pre depth ++ doScan maxDepth rest pre depth

/-- The body of the `for f in start_dir.iterdir()` loop of `do_scan` for a
single entry `f`: descend, collect, or skip. -/
def doScanBody (maxDepth : Nat) :
    FSEntry → List String → Nat → List (List String)
  | FSEntry.mk n d s ch, pre, depth =>
    if d = true ∧ s = false ∧ depth < maxDepth then
      doScan maxDepth ch (pre ++ [n]) (depth + 1)
    else if depth = maxDepth ∧ d = true ∧ s = false then
      [pre ++ [n]]
    else []

end

/-- Translation of `DeleteStagingFolderJob._get_list_of_sub_directories`:
run `do_scan` from the root directory (given by its path components
`rootPath` and its `iterdir()` entries) starting at depth 0. -/
def getListOfSubDirectories (numLevels : Nat) (rootPath : List String)
    (entries : List FSEntry) : List (List String) :=
  doScan numLevels entries rootPath 0

/-- Specification-side description of the candidates: the relative paths
of the non-symlink directories exactly `n + 1` levels below the scanned
root, reached exclusively through non-symlink directories. -/
def dirsAtLevel : Nat → List FSEntry → List (List String)
  | 0, entries =>
    (entries.filter fun e => e.isDir && !e.isSymlink).map fun e => [e.name]
  | n + 1, entries =>
    (entries.filter fun e => e.isDir && !e.isSymlink).flatMap fun e =>
      (dirsAtLevel n e.children).map fun q => e.name :: q

mutual

/-- Does the component path `q` step through a non-symlink directory of
the entry forest at every level (ending at a non-symlink directory)? -/
def realDirPathB : List FSEntry → List String → Bool
  | [], _ => false
  | _ :: _, [] => false
  | e :: rest, x :: xs =>
    realDirStepB e x xs || realDirPathB rest (x :: xs)

/-- Does the path `x :: xs` start at the single entry `e`: `e` is a
non-symlink directory named `x`, and `xs` continues inside its children
(or ends here)? -/
def realDirStepB : FSEntry → String → List String → Bool
  | FSEntry.mk n d s ch, x, xs =>
    n = x && d && !s && (xs.isEmpty || realDirPathB ch xs)

end


/-- Render a component path as the POSIX string `pathlib.PurePosixPath`
produces for an absolute path: a leading slash before every component. -/
def pathStr (comps : List String) : String :=
  comps.foldl (fun acc c => acc ++ "/" ++ c) ""

/-- Python `s.rstrip("/")`: drop every trailing slash. -/
def rstripSlash (s : String) : String :=
  String.mk ((s.data.reverse.dropWhile fun c => c = '/').reverse)

/-- One observable action of a job run.  `guardCheck` records that the
three checks at the top of `_remove_directory` ran on a path (with their
combined verdict); `rmtree`, `osRemove` and `osRmdir` are the destructive
filesystem primitives `shutil.rmtree`, `os.remove` and `os.rmdir`;
`warnMissing`, `dryRunLog` and `warnExtraEntries` are the log-only
outcomes. -/
inductive Event where
  | guardCheck (path : String) (passed : Bool)
  | warnMissing (path : String)
  | dryRunLog (path : String)
  | rmtree (path : String)
  | osRemove (path : String)
  | osRmdir (path : String)
  | warnExtraEntries (path : String)
deriving DecidableEq

/-- Is the event an invocation of a destructive removal primitive
(`shutil.rmtree`, `os.remove` or `os.rmdir`)? -/
def Event.isRemovalPrim : Event → Bool
  | .rmtree _ => true
  | .osRemove _ => true
  | .osRmdir _ => true
  | _ => false

/-- Is the event a guard check on the given path that passed? -/
def Event.isPassedGuardFor (p : String) : Event → Bool
  | .guardCheck q ok => q = p && ok
  | _ => false

/-- The path an event acts on. -/
def Event.path : Event → String
  | .guardCheck p _ => p
  | .warnMissing p => p
  | .dryRunLog p => p
  | .rmtree p => p
  | .osRemove p => p
  | .osRmdir p => p
  | .warnExtraEntries p => p

/-- Translation of `DeleteStagingFolderJob._remove_directory` (inherited
unchanged by `DeleteSourceFoldersJob`, which only swaps the class-level
pattern): raise unless the path is normalized and absolute; raise unless
it matches the allow pattern; warn if it does not exist; log only under
`dry_run`; otherwise call `shutil.rmtree`.  `pat` is the compiled class
pattern, `fs` the `os.path.exists` oracle.  The result pairs the Python
control flow (exception or normal return) with the emitted events. -/
def removeDirectory (pat : String → Bool) (dryRun : Bool)
    (fs : String → Bool) (dir : String) :
    Except String Unit × List Event :=
  if ¬ (normpath dir = dir ∧ isabs dir = true) then
    (.error (dir ++ " needs to be absolute and normalized!"),
      [.guardCheck dir false])
  else if pat dir = false then
    (.error ("Directory " ++ dir ++ " is not under parent folder! " ++
      "Will not remove automatically!"), [.guardCheck dir false])
  else if fs dir = false then
    (.ok (), [.guardCheck dir true, .warnMissing dir])
  else if dryRun = true then
    (.ok (), [.guardCheck dir true, .dryRunLog dir])
  else
    (.ok (), [.guardCheck dir true, .rmtree dir])

/-- Translation of
`DeleteStagingFolderJob._dask_task_to_process_directory_list`: remove the
directories of one partition strictly in order; the first exception
aborts the rest of the partition. -/
def processDirectoryList (pat : String → Bool) (dryRun : Bool)
    (fs : String → Bool) : List String → Except String Unit × List Event
  | [] => (.ok (), [])
  | dir :: rest =>
    match removeDirectory pat dryRun fs dir with
    | (.error e, evs) => (.error e, evs)
    | (.ok _, evs) =>
      match processDirectoryList pat dryRun fs rest with
      | (r, evs2) => (r, evs ++ evs2)

/-- Contiguous chunks of size `k + 1`, mirroring how
`dask.bag.from_sequence` slices a sequence into partitions. -/
def chunkSucc (k : Nat) : List α → List (List α)
  | [] => []
  | x :: xs => (x :: xs.take k) :: chunkSucc k (xs.drop k)
termination_by l => l.length
decreasing_by simp; omega

/-- Modelled from the spec: the partitioning performed by
`dask.bag.from_sequence(sub_directories, npartitions=n)` — the list is cut
into contiguous chunks of roughly equal size (ceiling of `length / n`,
at least one element per chunk) whose concatenation is the original
list.  Only that last fact is used by the theorems. -/
def daskPartitions (n : Nat) (xs : List α) : List (List α) :=
  chunkSucc (max 1 ((xs.length + n - 1) / n) - 1) xs

/-- Sequentially execute the partitions produced for the dask bag, as the
synchronous `compute()` of the mapped partitions does; an exception in a
partition propagates and stops later partitions. -/
def processPartitions (pat : String → Bool) (dryRun : Bool)
    (fs : String → Bool) : List (List String) → Except String Unit × List Event
  | [] => (.ok (), [])
  | part :: rest =>
    match processDirectoryList pat dryRun fs part with
    | (.error e, evs) => (.error e, evs)
    | (.ok _, evs) =>
      match processPartitions pat dryRun fs rest with
      | (r, evs2) => (r, evs ++ evs2)

/-- Translation of `DeleteStagingFolderJob._remove_subdirectories`:
partition the candidate list into `n_partitions` dask partitions and
process each partition with `_dask_task_to_process_directory_list`. -/
def removeSubdirectories (pat : String → Bool) (dryRun : Bool)
    (fs : String → Bool) (nPartitions : Nat) (dirs : List String) :
    Except String Unit × List Event :=
  processPartitions pat dryRun fs (daskPartitions nPartitions dirs)

/-- The staging job settings (`delete_staging_folder_job.JobSettings`).
The staging directory is given by its absolute path components. -/
structure StagingJobSettings where
  stagingDirectory : List String
  numOfDirLevels : Nat
  nPartitions : Nat
  dryRun : Bool

/-- Translation of `DeleteStagingFolderJob.run_job`: scan the staging
directory (whose `iterdir()` entries are `tree`), remove the candidate
batches in parallel, then remove the top-level staging folder
(`folder.as_posix().rstrip("/")`).  `fs` is the `os.path.exists`
oracle. -/
def stagingRunJob (s : StagingJobSettings) (tree : List FSEntry)
    (fs : String → Bool) : Except String Unit × List Event :=
  let subDirs :=
    (getListOfSubDirectories s.numOfDirLevels s.stagingDirectory tree).map
      pathStr
  match removeSubdirectories stagingPatternMatch s.dryRun fs s.nPartitions
      subDirs with
  | (.error e, evs) => (.error e, evs)
  | (.ok _, evs) =>
    match removeDirectory stagingPatternMatch s.dryRun fs
        (rstripSlash (pathStr s.stagingDirectory)) with
    | (r, evs2) => (r, evs ++ evs2)

/-- The one-level S3 listing consumed by
`DeleteSourceFoldersJob._s3_check`, after the response parsing at the top
of that method: the `IsTruncated` flag, the object names under the prefix
(keys with the prefix removed), and the common-prefix folder names (with
the prefix and surrounding slashes stripped). -/
structure S3Listing where
  isTruncated : Bool
  s3Files : List String
  s3Folders : List String

/-- The source-job settings
(`delete_source_folders_job.JobSettings` together with
`DirectoriesToDeleteConfigs`).  A modality source directory is given both
as its absolute path components (used for `Path(...)` scanning and
rendering) and is keyed by its modality abbreviation; `metadata_dir` and
`derivatives_dir` keep the raw configured strings, exactly as the code
passes them around. -/
structure SourceJobSettings where
  modalitySources : List (String × List String)
  metadataDir : Option String
  derivativesDir : Option String
  numOfDirLevels : Nat
  nPartitions : Nat
  dryRun : Bool
  modalitiesToDelete : Option (List String)

/-- The parts of the local filesystem the source job reads:
`dirEntries p` is what `Path(p).iterdir()` yields for the directory with
path components `p`; `mdEntries` is `os.listdir(metadata_dir)`; `fs` is
the `os.path.exists` oracle. -/
structure SourceFsState where
  dirEntries : List String → List FSEntry
  mdEntries : List String
  fs : String → Bool

/-- The selection `[f for f in md_files if f.endswith(".json")]` made by
`_s3_check` from the metadata directory listing. -/
def localJsonFiles (mdEntries : List String) : List String :=
  mdEntries.filter fun f => pyEndsWith f ".json"

/-- The set of metadata files present in both places, as
`_s3_check` computes it: the local `*.json` files that also occur among
the S3 object names (kept in local listing order; the code builds the
same collection as a Python set). -/
def filesInBothPlaces (localMdFiles s3Files : List String) : List String :=
  localMdFiles.filter fun f => s3Files.contains f

/-- Translation of `DeleteSourceFoldersJob._s3_check` after the response
parsing: raise when the listing is truncated; collect the local `*.json`
metadata files only when a metadata directory is configured and no
modality filter is set; warn (log only) about local files missing
remotely; require every locally known directory name — every key of
`modality_sources`, plus `derivatives` when a derivatives directory is
configured and no modality filter is set — to appear among the S3 folder
names, raising otherwise; return the metadata files found in both
places. -/
def s3Check (s : SourceJobSettings) (mdEntries : List String)
    (listing : S3Listing) : Except String (List String) :=
  if listing.isTruncated = true then
    .error "Unexpected number of objects in s3_location!"
  else
    let localMdFiles :=
      if s.metadataDir.isSome ∧ s.modalitiesToDelete = none then
        localJsonFiles mdEntries
      else []
    let inBoth := filesInBothPlaces localMdFiles listing.s3Files
    let localDirs :=
      (s.modalitySources.map Prod.fst) ++
        (if s.derivativesDir.isSome ∧ s.modalitiesToDelete = none then
          ["derivatives"]
        else [])
    if localDirs.all (fun d => listing.s3Folders.contains d) then
      .ok inBoth
    else
      .error "There are directories not found in S3!"

/-- Translation of
`DeleteSourceFoldersJob._get_list_of_modality_directories`: the modality
source directories, keeping only the modalities named by
`modalities_to_delete` when that filter is set. -/
def getListOfModalityDirectories (s : SourceJobSettings) :
    List (List String) :=
  s.modalitySources.filterMap fun kv =>
    match s.modalitiesToDelete with
    | none => some kv.2
    | some filt => if filt.contains kv.1 then some kv.2 else none

/-- Translation of `DeleteSourceFoldersJob._remove_metadata_directory`:
`os.remove` each metadata file found in both places (under the metadata
directory), then `os.rmdir` the directory if `os.scandir` finds nothing
left, and otherwise leave it in place with a warning.  `mdEntries` is the
directory content before the removals; the files removed are among them,
so the scandir check sees exactly the entries not removed. -/
def removeMetadataDirectory (mdDir : String) (mdEntries : List String)
    (inBoth : List String) : List Event :=
  (inBoth.map fun f => Event.osRemove (mdDir ++ "/" ++ f)) ++
    (if mdEntries.filter (fun e => ¬ inBoth.contains e = true) = [] then
      [Event.osRmdir mdDir]
    else [Event.warnExtraEntries mdDir])

/-- The per-folder body of the loop in `DeleteSourceFoldersJob.run_job`:
scan the modality folder, remove the candidate batches in parallel, then
remove the now-empty top-level folder. -/
def processOneFolder (s : SourceJobSettings) (st : SourceFsState)
    (folder : List String) : Except String Unit × List Event :=
  let subDirs :=
    (getListOfSubDirectories s.numOfDirLevels folder
      (st.dirEntries folder)).map pathStr
  match removeSubdirectories sourcePatternMatch s.dryRun st.fs s.nPartitions
      subDirs with
  | (.error e, evs) => (.error e, evs)
  | (.ok _, evs) =>
    match removeDirectory sourcePatternMatch s.dryRun st.fs
        (rstripSlash (pathStr folder)) with
    | (r, evs2) => (r, evs ++ evs2)

/-- The `for folder in folders_to_remove` loop of
`DeleteSourceFoldersJob.run_job`; an exception aborts the remaining
folders. -/
def processFolders (s : SourceJobSettings) (st : SourceFsState) :
    List (List String) → Except String Unit × List Event
  | [] => (.ok (), [])
  | folder :: rest =>
    match processOneFolder s st folder with
    | (.error e, evs) => (.error e, evs)
    | (.ok _, evs) =>
      match processFolders s st rest with
      | (r, evs2) => (r, evs ++ evs2)

/-- Translation of `DeleteSourceFoldersJob.run_job`: run `_s3_check`;
scan, prune and remove each configured modality folder (restricted by
`modalities_to_delete`); remove the derivatives directory when one is
configured and the filter is unset or names `derivatives`; finally remove
the metadata directory when one is configured and no filter is set. -/
def sourceRunJob (s : SourceJobSettings) (st : SourceFsState)
    (listing : S3Listing) : Except String Unit × List Event :=
  match s3Check s st.mdEntries listing with
  | .error e => (.error e, [])
  | .ok inBoth =>
    match processFolders s st (getListOfModalityDirectories s) with
    | (.error e, evs) => (.error e, evs)
    | (.ok _, evs) =>
      let derivStep :=
        match s.derivativesDir with
        | some dd =>
          if s.modalitiesToDelete = none ∨
              (s.modalitiesToDelete.getD []).contains "derivatives" = true then
            removeDirectory sourcePatternMatch s.dryRun st.fs dd
          else (.ok (), [])
        | none => (.ok (), [])
      match derivStep with
      | (.error e, evs2) => (.error e, evs ++ evs2)
      | (.ok _, evs2) =>
        let mdStep :=
          match s.metadataDir with
          | some md =>
            if s.modalitiesToDelete = none then
              removeMetadataDirectory md st.mdEntries inBoth
            else []
          | none => []
        (.ok (), evs ++ evs2 ++ mdStep)

/-- Sequencing of two traced computations: run the first; on an
exception, stop; otherwise run the second and append the events. -/
def seqPE (x y : Except String Unit × List Event) :
    Except String Unit × List Event :=
  match x with
  | (.error e, evs) => (.error e, evs)
  | (.ok _, evs) => (y.1, evs ++ y.2)

/-- The metadata cleanup as `run_job` performs it when a metadata
directory is configured and no modality filter is set: the `*.json`
selection and both-places intersection of `_s3_check` feeding
`_remove_metadata_directory`. -/
def metadataCleanupEvents (mdDir : String) (mdEntries s3Files : List String) :
    List Event :=
  removeMetadataDirectory mdDir mdEntries
    (filesInBothPlaces (localJsonFiles mdEntries) s3Files)

/-- Is every removal primitive in the trace preceded by a passed guard
check on the same path?  `seen` accumulates the paths already checked. -/
def guardedTraceB : List String → List Event → Bool
  | _, [] => true
  | seen, Event.guardCheck p true :: rest => guardedTraceB (p :: seen) rest
  | seen, Event.guardCheck _ false :: rest => guardedTraceB seen rest
  | seen, e :: rest =>
    (if e.isRemovalPrim then seen.contains e.path else true) &&
      guardedTraceB seen rest

/-- Failing input for C1: a source job with no modality folders, no
derivatives directory, and a metadata directory outside every allowed
parent; the run removes the metadata file and directory. -/
def cfgC1 : SourceJobSettings :=
  { modalitySources := []
    metadataDir := some "/tmp/md"
    derivativesDir := none
    numOfDirLevels := 4
    nPartitions := 20
    dryRun := false
    modalitiesToDelete := none }

/-- Local filesystem for the C1/C2 failing inputs: the metadata directory
contains the single file `a.json`. -/
def stMd : SourceFsState :=
  { dirEntries := fun _ => []
    mdEntries := ["a.json"]
    fs := fun _ => true }

/-- Remote listing for the C1/C2 failing inputs: not truncated, holding
the object `a.json` and no folders. -/
def listingMd : S3Listing :=
  { isTruncated := false
    s3Files := ["a.json"]
    s3Folders := [] }

/-- Failing input for C2: as C1 but with `dry_run = true` (the default of
the source job settings). -/
def cfgC2 : SourceJobSettings :=
  { modalitySources := []
    metadataDir := some "/tmp/md"
    derivativesDir := none
    numOfDirLevels := 4
    nPartitions := 20
    dryRun := true
    modalitiesToDelete := none }

/-- Failing input for C4: a derivatives directory is configured, the
modality filter names `derivatives`, and the remote folder set does not
contain `derivatives`. -/
def cfgC4 : SourceJobSettings :=
  { modalitySources := []
    metadataDir := none
    derivativesDir := some "/allen/aind/scratch/proj/derivatives"
    numOfDirLevels := 4
    nPartitions := 20
    dryRun := false
    modalitiesToDelete := some ["derivatives"] }

/-- Local filesystem for the C4 failing input. -/
def stC4 : SourceFsState :=
  { dirEntries := fun _ => []
    mdEntries := []
    fs := fun _ => true }

/-- Remote listing for the C4 failing input: no folders at all, so
`derivatives` is certainly absent remotely. -/
def listingC4 : S3Listing :=
  { isTruncated := false
    s3Files := []
    s3Folders := [] }

/-- A truncated remote listing, for the C7 witness. -/
def listingTrunc : S3Listing :=
  { isTruncated := true
    s3Files := []
    s3Folders := [] }

/-- A small scanned tree containing symbolic links at two levels, for
the C8 and C10 witnesses. -/
def treeWithLinks : List FSEntry :=
  [FSEntry.mk "a" true false
    [FSEntry.mk "x" true false [], FSEntry.mk "s" true true []],
   FSEntry.mk "ln" true true [FSEntry.mk "y" true false []]]

/-- The staging-pattern model agrees with the regex test vectors of
`test_delete_staging_folder_job.TestJobSettings.test_regex_pattern`. -/
theorem stagingPatternMatch_test_vectors :
    stagingPatternMatch "/allen/aind/stage/svc_aind_airflow/prod/abc_123"
        = true ∧
      stagingPatternMatch
        "/allen/aind/stage/svc_aind_airflow/dev/abc 123/def456" = true ∧
      stagingPatternMatch "/ allen/aind/stage/svc_aind_airflow/prod/"
        = false ∧
      stagingPatternMatch "/" = false ∧
      stagingPatternMatch "/something/else/here" = false := by
  refine ⟨by decide, by decide, by decide, by decide, by decide⟩

/-- The source-pattern model agrees with the regex test vectors of
`test_delete_source_folders_job.TestJobSettings.test_regex_pattern`. -/
theorem sourcePatternMatch_test_vectors :
    sourcePatternMatch "/allen/aind/stage/svc_aind_airflow/prod/abc_123"
        = true ∧
      sourcePatternMatch
        "/allen/aind/stage/svc_aind_airflow/dev/abc 123/def456" = true ∧
      sourcePatternMatch
        "/allen/aind/scratch/dynamic_foraging_rig_transfer/behavior"
        = true ∧
      sourcePatternMatch
        "//allen/aind/scratch/dynamic_foraging_rig_transfer/behavior"
        = true ∧
      sourcePatternMatch "/ allen/aind/stage/svc_aind_airflow/prod/"
        = false ∧
      sourcePatternMatch "/" = false ∧
      sourcePatternMatch "/something/else/here" = false ∧
      sourcePatternMatch
        "/allen/aind/scratch/dynamic_foraging_rig_transfer/" = false ∧
      sourcePatternMatch
        "///allen/aind/scratch/dynamic_foraging_rig_transfer/behavior"
        = false := by
  refine ⟨by decide, by decide, by decide, by decide, by decide, by decide,
    by decide, by decide, by decide⟩

/-- Sample behaviour of the `os.path` models: normalization of dots,
double slashes and parent references, and absoluteness. -/
theorem normpath_isabs_samples :
    normpath "/allen/aind/stage/a/b" = "/allen/aind/stage/a/b" ∧
      normpath "/a/../b//c/." = "/b/c" ∧
      normpath "" = "." ∧
      normpath "//a" = "//a" ∧
      normpath "///a" = "/a" ∧
      normpath "a/.." = "." ∧
      isabs "/a" = true ∧
      isabs "a/b" = false := by
  refine ⟨by decide, by decide, by decide, by decide, by decide, by decide,
    by decide, by decide⟩

/-- Sample scanner runs: the two-level tree of the spec scenario at depth
setting 1, and a depth-0 run returning the immediate subdirectory while
excluding a symlink. -/
theorem scanner_samples :
    getListOfSubDirectories 1 ["root"]
        [FSEntry.mk "a" true false
          [FSEntry.mk "x" true false [], FSEntry.mk "y" true false [],
            FSEntry.mk "f" false false []],
          FSEntry.mk "b" true false [FSEntry.mk "z" true false []]] =
      [["root", "a", "x"], ["root", "a", "y"], ["root", "b", "z"]] ∧
      getListOfSubDirectories 0 ["root"]
        [FSEntry.mk "a" true false [FSEntry.mk "x" true false []],
          FSEntry.mk "s" true true []] = [["root", "a"]] := by
  refine ⟨by decide, by decide⟩

theorem dirsAtLevel_zero_cons (e : FSEntry) (rest : List FSEntry) :
    dirsAtLevel 0 (e :: rest) =
      (if e.isDir && !e.isSymlink then [[e.name]] else []) ++
        dirsAtLevel 0 rest := by
  by_cases h : (e.isDir && !e.isSymlink) = true <;>
    simp [dirsAtLevel, List.filter_cons, h]

theorem dirsAtLevel_succ_cons (n : Nat) (e : FSEntry) (rest : List FSEntry) :
    dirsAtLevel (n + 1) (e :: rest) =
      (if e.isDir && !e.isSymlink then
        (dirsAtLevel n e.children).map (fun q => e.name :: q)
      else []) ++ dirsAtLevel (n + 1) rest := by
  by_cases h : (e.isDir && !e.isSymlink) = true <;>
    simp [dirsAtLevel, List.filter_cons, h]

mutual

theorem doScan_eq_dirsAtLevel (maxD : Nat) :
    ∀ (l : List FSEntry) (pre : List String) (depth : Nat),
      depth ≤ maxD →
      doScan maxD l pre depth =
        (dirsAtLevel (maxD - depth) l).map (fun q => pre ++ q)
  | [], pre, depth, _ => by
    cases h : maxD - depth <;> simp [doScan, dirsAtLevel, h]
  | f :: rest, pre, depth, h => by
    rw [doScan, doScanBody_eq_dirsAtLevel maxD f pre depth h,
      doScan_eq_dirsAtLevel maxD rest pre depth h]
    cases hk : maxD - depth with
    | zero => rw [dirsAtLevel_zero_cons]; simp
    | succ k => rw [dirsAtLevel_succ_cons]; simp

theorem doScanBody_eq_dirsAtLevel (maxD : Nat) :
    ∀ (f : FSEntry) (pre : List String) (depth : Nat),
      depth ≤ maxD →
      doScanBody maxD f pre depth =
        (match maxD - depth with
          | 0 => if f.isDir && !f.isSymlink then [[f.name]] else []
          | k + 1 =>
            if f.isDir && !f.isSymlink then
              (dirsAtLevel k f.children).map (fun q => f.name :: q)
            else []).map (fun q => pre ++ q)
  | FSEntry.mk n d s ch, pre, depth, h => by
    rw [doScanBody]
    by_cases hd : d = true
    · by_cases hs : s = false
      · by_cases hlt : depth < maxD
        · have hk : maxD - depth = (maxD - (depth + 1)) + 1 := by omega
          rw [if_pos ⟨hd, hs, hlt⟩,
            doScan_eq_dirsAtLevel maxD ch (pre ++ [n]) (depth + 1) hlt, hk]
          subst hd hs
          simp [FSEntry.isDir, FSEntry.isSymlink, FSEntry.name,
            FSEntry.children, List.map_map, Function.comp]
        · have heq : depth = maxD := by omega
          have hk : maxD - depth = 0 := by omega
          rw [if_neg (by simp [hlt]), if_pos ⟨heq, hd, hs⟩, hk]
          subst hd hs
          simp [FSEntry.isDir, FSEntry.isSymlink, FSEntry.name]
      · have hs' : s = true := by revert hs; cases s <;> simp
        rw [if_neg (by simp [hs']), if_neg (by simp [hs'])]
        subst hd hs'
        cases hk : maxD - depth <;>
          simp [FSEntry.isDir, FSEntry.isSymlink]
    · have hd' : d = false := by revert hd; cases d <;> simp
      rw [if_neg (by simp [hd']), if_neg (by simp [hd'])]
      subst hd'
      cases hk : maxD - depth <;>
        simp [FSEntry.isDir, FSEntry.isSymlink]

end

theorem getListOfSubDirectories_eq (d : Nat) (root : List String)
    (tree : List FSEntry) :
    getListOfSubDirectories d root tree =
      (dirsAtLevel d tree).map (fun q => root ++ q) := by
  have h := doScan_eq_dirsAtLevel d tree root 0 (Nat.zero_le d)
  simpa [getListOfSubDirectories] using h

theorem dirsAtLevel_length (n : Nat) :
    ∀ (l : List FSEntry), ∀ q ∈ dirsAtLevel n l, q.length = n + 1 := by
  induction n with
  | zero =>
    intro l q hq
    simp only [dirsAtLevel, List.mem_map, List.mem_filter] at hq
    obtain ⟨e, _, rfl⟩ := hq
    simp
  | succ n ih =>
    intro l q hq
    simp only [dirsAtLevel, List.mem_flatMap, List.mem_map,
      List.mem_filter] at hq
    obtain ⟨e, _, q', hq', rfl⟩ := hq
    simp [ih e.children q' hq']

theorem realDirPathB_of_mem {e : FSEntry} {l : List FSEntry}
    (hmem : e ∈ l) {x : String} {xs : List String}
    (hstep : realDirStepB e x xs = true) :
    realDirPathB l (x :: xs) = true := by
  induction l with
  | nil => cases hmem
  | cons f rest ih =>
    rw [realDirPathB]
    rcases List.mem_cons.mp hmem with rfl | hmem'
    · simp [hstep]
    · simp [ih hmem']

theorem realDirPathB_of_mem_dirsAtLevel (n : Nat) :
    ∀ (l : List FSEntry), ∀ q ∈ dirsAtLevel n l,
      realDirPathB l q = true := by
  induction n with
  | zero =>
    intro l q hq
    simp only [dirsAtLevel, List.mem_map, List.mem_filter] at hq
    obtain ⟨e, ⟨hmem, hreal⟩, rfl⟩ := hq
    refine realDirPathB_of_mem hmem ?_
    cases e with
    | mk n' d s ch =>
      simp [realDirStepB, FSEntry.name]
      simp [FSEntry.isDir, FSEntry.isSymlink] at hreal
      simp [hreal]
  | succ n ih =>
    intro l q hq
    simp only [dirsAtLevel, List.mem_flatMap, List.mem_map,
      List.mem_filter] at hq
    obtain ⟨e, ⟨hmem, hreal⟩, q', hq', rfl⟩ := hq
    refine realDirPathB_of_mem hmem ?_
    have hch : realDirPathB e.children q' = true := ih e.children q' hq'
    cases e with
    | mk n' d s ch =>
      simp [FSEntry.isDir, FSEntry.isSymlink] at hreal
      simp [realDirStepB, FSEntry.name, hreal]
      simp [FSEntry.children] at hch
      simp [hch]

theorem processDirectoryList_cons (pat : String → Bool) (dryRun : Bool)
    (fs : String → Bool) (d : String) (rest : List String) :
    processDirectoryList pat dryRun fs (d :: rest) =
      seqPE (removeDirectory pat dryRun fs d)
        (processDirectoryList pat dryRun fs rest) := by
  rw [processDirectoryList, seqPE.eq_def]

theorem processPartitions_cons (pat : String → Bool) (dryRun : Bool)
    (fs : String → Bool) (part : List String) (rest : List (List String)) :
    processPartitions pat dryRun fs (part :: rest) =
      seqPE (processDirectoryList pat dryRun fs part)
        (processPartitions pat dryRun fs rest) := by
  rw [processPartitions, seqPE.eq_def]

theorem seqPE_assoc (x y z : Except String Unit × List Event) :
    seqPE (seqPE x y) z = seqPE x (seqPE y z) := by
  rcases x with ⟨rx, ex⟩
  rcases y with ⟨ry, ey⟩
  cases rx <;> cases ry <;> simp [seqPE]

theorem processDirectoryList_append (pat : String → Bool) (dryRun : Bool)
    (fs : String → Bool) (a b : List String) :
    processDirectoryList pat dryRun fs (a ++ b) =
      seqPE (processDirectoryList pat dryRun fs a)
        (processDirectoryList pat dryRun fs b) := by
  induction a with
  | nil =>
    simp [processDirectoryList, seqPE]
  | cons d rest ih =>
    rw [List.cons_append, processDirectoryList_cons,
      processDirectoryList_cons, ih, seqPE_assoc]

theorem processPartitions_eq_flatten (pat : String → Bool) (dryRun : Bool)
    (fs : String → Bool) (parts : List (List String)) :
    processPartitions pat dryRun fs parts =
      processDirectoryList pat dryRun fs parts.flatten := by
  induction parts with
  | nil => simp [processPartitions, processDirectoryList]
  | cons part rest ih =>
    rw [processPartitions_cons, List.flatten_cons,
      processDirectoryList_append, ih]

theorem chunkSucc_flatten (k : Nat) :
    ∀ (xs : List α), (chunkSucc k xs).flatten = xs
  | [] => by rw [chunkSucc]; rfl
  | x :: xs => by
    rw [chunkSucc, List.flatten_cons, chunkSucc_flatten k (xs.drop k)]
    simp [List.take_append_drop]
termination_by xs => xs.length
decreasing_by simp; omega

theorem removeSubdirectories_eq (pat : String → Bool) (dryRun : Bool)
    (fs : String → Bool) (n : Nat) (dirs : List String) :
    removeSubdirectories pat dryRun fs n dirs =
      processDirectoryList pat dryRun fs dirs := by
  rw [removeSubdirectories, daskPartitions, processPartitions_eq_flatten,
    chunkSucc_flatten]

theorem string_append_left_cancel {a b c : String}
    (h : a ++ b = a ++ c) : b = c := by
  have hd : a.data ++ b.data = a.data ++ c.data := by
    have h1 := congrArg String.data h
    simpa [String.data_append] using h1
  have hbc : b.data = c.data := List.append_cancel_left hd
  rcases b with ⟨lb⟩
  rcases c with ⟨lc⟩
  exact congrArg String.mk hbc

/-- C6: the single-directory removal `_remove_directory` raises exactly
when the path is not normalized, not absolute, or fails the allow
pattern, and then no removal primitive is invoked; when the checks pass
and the path is missing it warns and returns normally; and the
`shutil.rmtree` primitive runs exactly when all checks pass, the path
exists, and `dry_run` is false. -/
theorem remove_directory_guard_characterization (pat : String → Bool)
    (dryRun : Bool) (fs : String → Bool) (dir : String) :
    ((∃ msg, (removeDirectory pat dryRun fs dir).1 = .error msg) ↔
      ¬ (normpath dir = dir ∧ isabs dir = true ∧ pat dir = true))
    ∧ ((∃ msg, (removeDirectory pat dryRun fs dir).1 = .error msg) →
      (removeDirectory pat dryRun fs dir).2.any Event.isRemovalPrim = false)
    ∧ ((normpath dir = dir ∧ isabs dir = true ∧ pat dir = true ∧
        fs dir = false) →
      (removeDirectory pat dryRun fs dir).1 = .ok () ∧
        (removeDirectory pat dryRun fs dir).2 =
          [.guardCheck dir true, .warnMissing dir])
    ∧ ((removeDirectory pat dryRun fs dir).2.any Event.isRemovalPrim = true ↔
      (normpath dir = dir ∧ isabs dir = true ∧ pat dir = true ∧
        fs dir = true ∧ dryRun = false)) := by
  by_cases h1 : normpath dir = dir ∧ isabs dir = true
  · by_cases h2 : pat dir = true
    · by_cases h3 : fs dir = true
      · by_cases h4 : dryRun = true
        · have hres : removeDirectory pat dryRun fs dir =
              (.ok (), [.guardCheck dir true, .dryRunLog dir]) := by
            simp [removeDirectory, h1.1, h1.2, h2, h3, h4]
          rw [hres]
          simp [Event.isRemovalPrim, h1.1, h1.2, h2, h3, h4]
        · have h4f : dryRun = false := by revert h4; cases dryRun <;> simp
          have hres : removeDirectory pat dryRun fs dir =
              (.ok (), [.guardCheck dir true, .rmtree dir]) := by
            simp [removeDirectory, h1.1, h1.2, h2, h3, h4f]
          rw [hres]
          simp [Event.isRemovalPrim, h1.1, h1.2, h2, h3, h4f]
      · have h3f : fs dir = false := by revert h3; cases fs dir <;> simp
        have hres : removeDirectory pat dryRun fs dir =
            (.ok (), [.guardCheck dir true, .warnMissing dir]) := by
          simp [removeDirectory, h1.1, h1.2, h2, h3f]
        rw [hres]
        simp [Event.isRemovalPrim, h1.1, h1.2, h2, h3f]
    · have h2f : pat dir = false := by revert h2; cases pat dir <;> simp
      have hres : removeDirectory pat dryRun fs dir =
          (.error ("Directory " ++ dir ++ " is not under parent folder! " ++
            "Will not remove automatically!"), [.guardCheck dir false]) := by
        simp [removeDirectory, h1.1, h1.2, h2f]
      rw [hres]
      simp [Event.isRemovalPrim, h1.1, h1.2, h2f]
  · have hres : removeDirectory pat dryRun fs dir =
        (.error (dir ++ " needs to be absolute and normalized!"),
          [.guardCheck dir false]) := by
      simp [removeDirectory, h1]
    rw [hres]
    have h1' : ¬ (normpath dir = dir ∧ isabs dir = true ∧ pat dir = true) := by
      intro hc
      exact h1 ⟨hc.1, hc.2.1⟩
    have h1'' : ¬ (normpath dir = dir ∧ isabs dir = true ∧ pat dir = true ∧
        fs dir = true ∧ dryRun = false) := by
      intro hc
      exact h1 ⟨hc.1, hc.2.1⟩
    have h1''' : ¬ (normpath dir = dir ∧ isabs dir = true ∧ pat dir = true ∧
        fs dir = false) := by
      intro hc
      exact h1 ⟨hc.1, hc.2.1⟩
    simp [Event.isRemovalPrim, h1', h1'', h1''']

theorem osRemove_mem_map_iff (mdDir : String) (f : String)
    (l : List String) :
    Event.osRemove (mdDir ++ "/" ++ f) ∈
      (l.map fun g => Event.osRemove (mdDir ++ "/" ++ g)) ↔ f ∈ l := by
  constructor
  · intro h
    obtain ⟨g, hg, heq⟩ := List.mem_map.mp h
    have hs : (mdDir ++ "/") ++ g = (mdDir ++ "/") ++ f := by
      injection heq
    have h3 : g = f := string_append_left_cancel hs
    exact h3 ▸ hg
  · intro h
    exact List.mem_map_of_mem _ h

/-- C5: the metadata cleanup removes exactly the local `*.json` files
that also appear in the remote object listing (local-only files are
never removed); afterwards the metadata directory is removed exactly
when no other entry remains, and otherwise it is left in place with a
warning. -/
theorem metadata_cleanup_exact_intersection (mdDir : String)
    (mdEntries s3Files : List String) :
    (∀ f : String,
      Event.osRemove (mdDir ++ "/" ++ f) ∈
          metadataCleanupEvents mdDir mdEntries s3Files ↔
        (f ∈ mdEntries ∧ pyEndsWith f ".json" = true ∧ f ∈ s3Files))
    ∧ (mdEntries.filter (fun e =>
          ¬ (filesInBothPlaces (localJsonFiles mdEntries) s3Files).contains e
            = true) ≠ [] →
        Event.osRmdir mdDir ∉ metadataCleanupEvents mdDir mdEntries s3Files ∧
          Event.warnExtraEntries mdDir ∈
            metadataCleanupEvents mdDir mdEntries s3Files)
    ∧ (mdEntries.filter (fun e =>
          ¬ (filesInBothPlaces (localJsonFiles mdEntries) s3Files).contains e
            = true) = [] →
        Event.osRmdir mdDir ∈ metadataCleanupEvents mdDir mdEntries s3Files) := by
  refine ⟨?_, ?_, ?_⟩
  · intro f
    rw [metadataCleanupEvents, removeMetadataDirectory, List.mem_append]
    have htail : ∀ (b : Bool),
        Event.osRemove (mdDir ++ "/" ++ f) ∉
          (if b = true then [Event.osRmdir mdDir]
            else [Event.warnExtraEntries mdDir]) := by
      intro b
      cases b <;> simp
    constructor
    · intro h
      rcases h with h | h
      · have hf := (osRemove_mem_map_iff mdDir f _).mp h
        simp only [filesInBothPlaces, localJsonFiles, List.mem_filter] at hf
        refine ⟨hf.1.1, hf.1.2, ?_⟩
        simpa using hf.2
      · by_cases hb : mdEntries.filter (fun e =>
            ¬ (filesInBothPlaces (localJsonFiles mdEntries) s3Files).contains e
              = true) = []
        · rw [if_pos (by simpa using hb)] at h
          simp at h
        · rw [if_neg (by simpa using hb)] at h
          simp at h
    · intro h
      left
      rw [osRemove_mem_map_iff]
      simp only [filesInBothPlaces, localJsonFiles, List.mem_filter]
      exact ⟨⟨h.1, h.2.1⟩, by simpa using h.2.2⟩
  · intro hne
    rw [metadataCleanupEvents, removeMetadataDirectory]
    rw [if_neg (by simpa using hne)]
    constructor
    · rw [List.mem_append]
      intro h
      rcases h with h | h
      · obtain ⟨g, _, heq⟩ := List.mem_map.mp h
        cases heq
      · simp at h
    · rw [List.mem_append]
      right
      simp
  · intro he
    rw [metadataCleanupEvents, removeMetadataDirectory]
    rw [if_pos (by simpa using he), List.mem_append]
    right
    simp

/-- C1 (code bug): on the failing input, `run_job` of the source job
removes the metadata file and the metadata directory through `os.remove`
and `os.rmdir` without a single guard check appearing in the trace — and
the metadata directory does not even match the allow pattern. -/
theorem metadata_removal_bypasses_guard :
    (sourceRunJob cfgC1 stMd listingMd).2 =
        [Event.osRemove "/tmp/md/a.json", Event.osRmdir "/tmp/md"] ∧
      guardedTraceB [] (sourceRunJob cfgC1 stMd listingMd).2 = false ∧
      sourcePatternMatch "/tmp/md" = false ∧
      (sourceRunJob cfgC1 stMd listingMd).1 = .ok () := by
  refine ⟨by decide, by decide, by decide, rfl⟩

/-- C2 (code bug): with `dry_run = true`, a run of the source job still
invokes removal primitives — the metadata cleanup ignores the flag. -/
theorem dry_run_still_invokes_removal_primitives :
    cfgC2.dryRun = true ∧
      (sourceRunJob cfgC2 stMd listingMd).2.any Event.isRemovalPrim = true ∧
      (sourceRunJob cfgC2 stMd listingMd).2 =
        [Event.osRemove "/tmp/md/a.json", Event.osRmdir "/tmp/md"] := by
  refine ⟨by decide, by decide, by decide⟩

/-- C3 counterexample: with depth setting 0 on a root with a single
subdirectory, the scanner returns that immediate subdirectory, not the
root itself as the claim states. -/
theorem scanner_depth_zero_counterexample :
    getListOfSubDirectories 0 ["root"] [FSEntry.mk "a" true false []] =
        [["root", "a"]] ∧
      ([["root", "a"]] : List (List String)) ≠ [["root"]] :=
  ⟨by decide, by decide⟩

/-- C3 (amended): for every root and depth setting `d`, the scanner
returns exactly the non-symlink directories reached through non-symlink
directories at exactly `d + 1` levels below the root (every candidate has
`d + 1` components below the root); with `d = 0` the candidates are the
root's immediate subdirectories, never the root itself. -/
theorem scanner_collects_depth_plus_one (d : Nat) (root : List String)
    (tree : List FSEntry) :
    getListOfSubDirectories d root tree =
        (dirsAtLevel d tree).map (fun q => root ++ q) ∧
      ∀ q ∈ dirsAtLevel d tree, q.length = d + 1 :=
  ⟨getListOfSubDirectories_eq d root tree, dirsAtLevel_length d tree⟩

theorem scanner_collects_depth_plus_one_witness :
    getListOfSubDirectories 1 ["root"]
        [FSEntry.mk "a" true false [FSEntry.mk "x" true false []]] =
        (dirsAtLevel 1
          [FSEntry.mk "a" true false [FSEntry.mk "x" true false []]]).map
          (fun q => ["root"] ++ q) ∧
      (["a", "x"] : List String).length = 1 + 1 :=
  ⟨(scanner_collects_depth_plus_one 1 ["root"]
      [FSEntry.mk "a" true false [FSEntry.mk "x" true false []]]).1,
    (scanner_collects_depth_plus_one 1 ["root"]
      [FSEntry.mk "a" true false [FSEntry.mk "x" true false []]]).2
      ["a", "x"] (by decide)⟩

/-- C4 (code bug): with the modality filter set to `["derivatives"]` and
`derivatives` absent from the remote folder set, the run still completes
normally and `shutil.rmtree` is invoked on the derivatives directory —
no consistency error is raised for it. -/
theorem derivatives_deleted_without_remote_check :
    cfgC4.modalitiesToDelete = some ["derivatives"] ∧
      listingC4.s3Folders.contains "derivatives" = false ∧
      (sourceRunJob cfgC4 stC4 listingC4).1 = .ok () ∧
      (sourceRunJob cfgC4 stC4 listingC4).2.contains
        (Event.rmtree "/allen/aind/scratch/proj/derivatives") = true := by
  refine ⟨by decide, by decide, rfl, by decide⟩

/-- C7: whenever the remote listing reports truncated results, the source
job raises and its trace is empty — no filesystem mutation happens before
or after the raise. -/
theorem truncated_listing_no_mutations (s : SourceJobSettings)
    (st : SourceFsState) (listing : S3Listing)
    (h : listing.isTruncated = true) :
    (sourceRunJob s st listing).2 = [] ∧
      ∃ msg, (sourceRunJob s st listing).1 = .error msg := by
  rw [sourceRunJob, s3Check, if_pos h]
  exact ⟨rfl, _, rfl⟩

theorem truncated_listing_no_mutations_witness :
    (sourceRunJob cfgC1 stMd listingTrunc).2 = [] ∧
      ∃ msg, (sourceRunJob cfgC1 stMd listingTrunc).1 = .error msg :=
  truncated_listing_no_mutations cfgC1 stMd listingTrunc rfl

/-- C8: every path the scanner returns steps through a non-symlink
directory at every level below the root — symbolic links are neither
descended into nor collected, at any depth. -/
theorem scanner_excludes_symlinks (d : Nat) (root : List String)
    (tree : List FSEntry) :
    ∀ p ∈ getListOfSubDirectories d root tree,
      ∃ q, p = root ++ q ∧ realDirPathB tree q = true := by
  intro p hp
  rw [getListOfSubDirectories_eq] at hp
  obtain ⟨q, hq, rfl⟩ := List.mem_map.mp hp
  exact ⟨q, rfl, realDirPathB_of_mem_dirsAtLevel d tree q hq⟩

theorem scanner_excludes_symlinks_witness :
    ∃ q, (["root", "a", "x"] : List String) = ["root"] ++ q ∧
      realDirPathB treeWithLinks q = true :=
  scanner_excludes_symlinks 1 ["root"] treeWithLinks ["root", "a", "x"]
    (by decide)

/-- C9: the pruning phase produces identical behaviour (same exception
outcome and same event trace, hence the same removed set and final
filesystem state) for any two partition counts over the same candidate
list. -/
theorem partition_count_invariance (pat : String → Bool) (dryRun : Bool)
    (fs : String → Bool) (p1 p2 : Nat) (dirs : List String)
    (_h1 : 1 ≤ p1) (_h2 : 1 ≤ p2) :
    removeSubdirectories pat dryRun fs p1 dirs =
      removeSubdirectories pat dryRun fs p2 dirs := by
  rw [removeSubdirectories_eq, removeSubdirectories_eq]

theorem partition_count_invariance_witness :
    removeSubdirectories stagingPatternMatch false (fun _ => true) 1
        ["/allen/aind/stage/svc_aind_airflow/prod/a",
          "/allen/aind/stage/svc_aind_airflow/prod/b"] =
      removeSubdirectories stagingPatternMatch false (fun _ => true) 8
        ["/allen/aind/stage/svc_aind_airflow/prod/a",
          "/allen/aind/stage/svc_aind_airflow/prod/b"] :=
  partition_count_invariance stagingPatternMatch false (fun _ => true) 1 8
    ["/allen/aind/stage/svc_aind_airflow/prod/a",
      "/allen/aind/stage/svc_aind_airflow/prod/b"]
    (by decide) (by decide)

/-- C10: every path the scanner returns is a strict descendant of the
scanned root: the root components are a proper initial segment of every
candidate, so the scanner never emits the root itself, a sibling of the
root, or any path outside the root subtree. -/
theorem scanner_returns_strict_descendants (d : Nat) (root : List String)
    (tree : List FSEntry) :
    ∀ p ∈ getListOfSubDirectories d root tree,
      ∃ q, q ≠ [] ∧ p = root ++ q := by
  intro p hp
  rw [getListOfSubDirectories_eq] at hp
  obtain ⟨q, hq, rfl⟩ := List.mem_map.mp hp
  have hl := dirsAtLevel_length d tree q hq
  refine ⟨q, ?_, rfl⟩
  intro hq0
  rw [hq0] at hl
  simp at hl

theorem scanner_returns_strict_descendants_witness :
    ∃ q, q ≠ [] ∧ (["root", "a", "x"] : List String) = ["root"] ++ q :=
  scanner_returns_strict_descendants 1 ["root"] treeWithLinks
    ["root", "a", "x"] (by decide)

theorem metadata_cleanup_exact_intersection_witness :
    (Event.osRemove ("/md" ++ "/" ++ "a.json") ∈
        metadataCleanupEvents "/md" ["a.json", "b.json"] ["a.json"] ↔
      ("a.json" ∈ ["a.json", "b.json"] ∧
        pyEndsWith "a.json" ".json" = true ∧ "a.json" ∈ ["a.json"])) ∧
      (Event.osRmdir "/md" ∉
          metadataCleanupEvents "/md" ["a.json", "b.json"] ["a.json"] ∧
        Event.warnExtraEntries "/md" ∈
          metadataCleanupEvents "/md" ["a.json", "b.json"] ["a.json"]) :=
  ⟨(metadata_cleanup_exact_intersection "/md" ["a.json", "b.json"]
      ["a.json"]).1 "a.json",
    (metadata_cleanup_exact_intersection "/md" ["a.json", "b.json"]
      ["a.json"]).2.1 (by decide)⟩

theorem remove_directory_guard_witness :
    (removeDirectory stagingPatternMatch false (fun _ => false)
        "/allen/aind/stage/svc_aind_airflow/prod/abc").1 = .ok () ∧
      (removeDirectory stagingPatternMatch false (fun _ => false)
          "/allen/aind/stage/svc_aind_airflow/prod/abc").2 =
        [.guardCheck "/allen/aind/stage/svc_aind_airflow/prod/abc" true,
          .warnMissing "/allen/aind/stage/svc_aind_airflow/prod/abc"] :=
  (remove_directory_guard_characterization stagingPatternMatch false
      (fun _ => false) "/allen/aind/stage/svc_aind_airflow/prod/abc").2.2.1
    ⟨by decide, by decide, by decide, rfl⟩
